import Mathlib

/-!
Shallow embedding of the LittlevGL table widget, `src/lv_objx/lv_table.c`.

The widget state (`lv_table_ext_t` plus the widget size that `refr_size`
maintains) is modelled by `LvTable.TableState`; the external collaborators
(text measurement, and the contents the host allocator leaves in a fresh
buffer) by `LvTable.Env`.  Coordinates (`lv_coord_t`) are modelled over `Int`;
row, column and cell indices (`uint16_t`/`uint32_t`) over `Nat`, with an
explicit `% 65536` where the source narrows a product into a `uint16_t`
(the `row_start` computation of `get_row_height`).  The walks over a row are
written with an explicit fuel argument; each outer-loop iteration of the
source advances the column cursor by at least one, so a fuel of `col_cnt`
is exact in the regime where the `uint16_t` cell index does not wrap
(`row_cnt * col_cnt ≤ 65536`).
-/

namespace LvTable

/-- Text-drawing flag vocabulary of the external text subsystem
(`LV_TXT_FLAG_NONE` / `LV_TXT_FLAG_RIGHT` / `LV_TXT_FLAG_CENTER`). -/
inductive TxtFlag where
  | flagNone
  | flagRight
  | flagCenter
deriving DecidableEq

/-- The packed per-cell format byte (`lv_table_cell_format_t`): two alignment
bits and the right-merge bit.  The remaining bits of the byte are never read
by the table code and are not modelled. -/
structure CellFmt where
  align : Fin 4
  rightMerge : Bool
deriving DecidableEq

/-- One allocated cell slot: the format byte followed by the NUL-terminated
text, modelled as the format value plus the list of text characters. -/
structure Cell where
  fmt : CellFmt
  txt : List Char
deriving DecidableEq

def LV_LABEL_ALIGN_LEFT : Fin 4 := 0

def LV_LABEL_ALIGN_CENTER : Fin 4 := 1

def LV_LABEL_ALIGN_RIGHT : Fin 4 := 2

/-- The slice of `lv_style_t` that the table code reads: the body paddings and
the font height (`lv_font_get_height`).  The font, letter spacing and line
spacing consumed by `lv_txt_get_size` are folded into the abstract measurement
function of `Env`, which receives the whole style. -/
structure Style where
  padHor : Int
  padVer : Int
  fontH : Int
deriving DecidableEq

/-- External collaborators of the table code: `measureH` is the height output
(`txt_size.y`) of `lv_txt_get_size(text, font, letter_space, line_space,
max_width, flags)`; `freshFmt` is the value the format byte of a freshly
`lv_mem_alloc`-ed 2-byte cell buffer happens to hold (the host allocator
leaves buffer contents unspecified). -/
structure Env where
  measureH : List Char → Style → Int → TxtFlag → Int
  freshFmt : CellFmt

/-- `lv_table_ext_t` plus the widget size that `refr_size` pushes through
`lv_obj_set_size`.  `cellData = none` models a NULL `cell_data` pointer;
`colW` models the `col_w[LV_TABLE_COL_MAX]` array. -/
structure TableState where
  cellData : Option (List (Option Cell))
  cellStyle : Style
  bgStyle : Style
  rowCnt : Nat
  colCnt : Nat
  colW : Nat → Int
  objW : Int
  objH : Int

/-- Modelled from the spec: `LV_TABLE_COL_MAX`, the fixed compile-time cap on
the column count; its defining header is not under `src/`.  The concrete value
(the library default, 12) is irrelevant to the claims. -/
def LV_TABLE_COL_MAX : Nat := 12

/-- Inner merge-chain loop of `get_row_height` (lv_table.c lines 606-616):
starting from the cell itself, while the bound `col_merge + col < col_cnt - 1`
holds and the inspected slot exists with its right-merge flag set, absorb the
width of the next column into `txt_w`.  The fuel argument is the loop bound
`col_cnt - 1 - col`; exhausting it is exactly the failure of the loop guard. -/
def get_row_height_merge_chain (cd : List (Option Cell)) (colW : Nat → Int)
    (cell col : Nat) : Nat → Nat → Int → Nat × Int
  | 0, colMerge, txtW => (colMerge, txtW)
  | fuel + 1, colMerge, txtW =>
    match cd.getD (cell + colMerge) none with
    | some c =>
      if c.fmt.rightMerge then
        get_row_height_merge_chain cd colW cell col fuel (colMerge + 1)
          (txtW + colW (col + colMerge + 1))
      else (colMerge, txtW)
    | none => (colMerge, txtW)

/-- Inner merge-chain loop of the main-draw branch of `lv_table_design`
(lv_table.c lines 472-483): identical control to the `get_row_height` chain,
but it extends the running right edge `cell_area.x2` instead of a width. -/
def lv_table_design_merge_chain (cd : List (Option Cell)) (colW : Nat → Int)
    (cell col : Nat) : Nat → Nat → Int → Nat × Int
  | 0, colMerge, x2 => (colMerge, x2)
  | fuel + 1, colMerge, x2 =>
    match cd.getD (cell + colMerge) none with
    | some c =>
      if c.fmt.rightMerge then
        lv_table_design_merge_chain cd colW cell col fuel (colMerge + 1)
          (x2 + colW (col + colMerge + 1))
      else (colMerge, x2)
    | none => (colMerge, x2)

/-- Outer loop of `get_row_height` (lv_table.c lines 601-627): scan the cells
of one row, skip NULL slots, and for each allocated slot resolve the merge
chain, subtract the horizontal cell padding, measure the wrapped text with
`LV_TXT_FLAG_NONE`, and keep the running maximum height.  After a measured
cell the cursor jumps past the absorbed columns (`cell += col_merge;
col += col_merge;` plus the loop increment). -/
def get_row_height_scan (env : Env) (st : Style) (cd : List (Option Cell))
    (colW : Nat → Int) (colCnt rowStart : Nat) : Nat → Nat → Nat → Int → Int
  | 0, _, _, hMax => hMax
  | fuel + 1, cell, col, hMax =>
    if cell < rowStart + colCnt then
      match cd.getD cell none with
      | none => get_row_height_scan env st cd colW colCnt rowStart fuel (cell + 1) (col + 1) hMax
      | some c =>
        let r := get_row_height_merge_chain cd colW cell col (colCnt - 1 - col) 0 (colW col)
        let txtW := r.2 - 2 * st.padHor
        let h := env.measureH c.txt st txtW TxtFlag.flagNone
        get_row_height_scan env st cd colW colCnt rowStart fuel
          (cell + r.1 + 1) (col + r.1 + 1) (max h hMax)
    else hMax

/-- `get_row_height` (lv_table.c lines 590-630).  `row_start` is a `uint16_t`,
hence the explicit `% 65536` on the product. -/
def get_row_height (env : Env) (s : TableState) (rowId : Nat) : Int :=
  let cd := s.cellData.getD []
  let rowStart := (rowId * s.colCnt) % 65536
  get_row_height_scan env s.cellStyle cd s.colW s.colCnt rowStart
      s.colCnt rowStart 0 s.cellStyle.fontH
    + 2 * s.cellStyle.padVer

/-- `refr_size` (lv_table.c lines 566-588): sum the active column widths, sum
the row heights, add twice the background paddings, and store the result as
the widget size (`lv_obj_set_size`). -/
def refr_size (env : Env) (s : TableState) : TableState :=
  let w := (List.range s.colCnt).foldl (fun acc i => acc + s.colW i) 0
  let h := (List.range s.rowCnt).foldl (fun acc i => acc + get_row_height env s i) 0
  { s with objW := w + s.bgStyle.padHor * 2, objH := h + s.bgStyle.padVer * 2 }

/-- Modelled from the spec: `lv_mem_realloc` of the `cell_data` pointer array
lives in `lv_misc/lv_mem.c`, which is not under `src/`.  Following the spec's
resize contract, the reallocated array keeps the old slots at their old linear
offsets up to the new size and extends with freshly-zeroed (NULL, i.e. empty)
slots; `lv_mem_realloc(NULL, n)` behaves as a fresh all-empty array. -/
def store_realloc (cd : Option (List (Option Cell))) (n : Nat) : List (Option Cell) :=
  (List.range n).map (fun i => (cd.getD []).getD i none)

/-- `lv_table_create` (lv_table.c lines 52-101).  The base-widget plumbing
(object allocation, signal and design function registration) is external;
`stylePlain` stands for `lv_style_plain`, `styleBg` for the
`lv_style_plain_color` background that the non-copy branch installs via
`lv_table_set_style` (which triggers `refr_size`), `dpi` for `LV_DPI`.  The
copy branch copies the cell style and the row and column counts from `copy`
and leaves `cell_data` NULL, exactly as the source does. -/
def lv_table_create (env : Env) (stylePlain styleBg : Style) (dpi : Int)
    (copy : Option TableState) : TableState :=
  let ext : TableState :=
    { cellData := none
      cellStyle := stylePlain
      bgStyle := styleBg
      rowCnt := 0
      colCnt := 0
      colW := fun _ => dpi
      objW := 0
      objH := 0 }
  match copy with
  | none => refr_size env ext
  | some c => { ext with cellStyle := c.cellStyle, colCnt := c.colCnt, rowCnt := c.rowCnt }

/-- `lv_table_set_cell_value` (lv_table.c lines 114-139): bounds check, save
the format byte of an existing slot (or initialize left-aligned, unmerged),
reallocate the slot buffer to the new text, restore the format byte, refresh
the size.  A NULL store with in-range counts is a NULL dereference in C; the
model returns the state unchanged there (unreachable under the size
invariant). -/
def lv_table_set_cell_value (env : Env) (s : TableState) (row col : Nat)
    (txt : List Char) : TableState :=
  if s.rowCnt ≤ row ∨ s.colCnt ≤ col then s
  else
    match s.cellData with
    | none => s
    | some cd =>
      let cell := row * s.colCnt + col
      let format :=
        match cd.getD cell none with
        | some c => c.fmt
        | none => { align := LV_LABEL_ALIGN_LEFT, rightMerge := false }
      refr_size env { s with cellData := some (cd.set cell (some { fmt := format, txt := txt })) }

/-- `lv_table_set_row_cnt` (lv_table.c lines 146-160): store the new row
count, then either reallocate the store to `row_cnt * col_cnt` slots or free
it to NULL, and refresh the size. -/
def lv_table_set_row_cnt (env : Env) (s : TableState) (rowCnt : Nat) : TableState :=
  let s1 := { s with rowCnt := rowCnt }
  let s2 :=
    if 0 < s1.rowCnt ∧ 0 < s1.colCnt then
      { s1 with cellData := some (store_realloc s1.cellData (s1.rowCnt * s1.colCnt)) }
    else { s1 with cellData := none }
  refr_size env s2

/-- `lv_table_set_col_cnt` (lv_table.c lines 167-186): reject counts at or
above `LV_TABLE_COL_MAX`, otherwise as `lv_table_set_row_cnt`. -/
def lv_table_set_col_cnt (env : Env) (s : TableState) (colCnt : Nat) : TableState :=
  if LV_TABLE_COL_MAX ≤ colCnt then s
  else
    let s1 := { s with colCnt := colCnt }
    let s2 :=
      if 0 < s1.rowCnt ∧ 0 < s1.colCnt then
        { s1 with cellData := some (store_realloc s1.cellData (s1.rowCnt * s1.colCnt)) }
      else { s1 with cellData := none }
    refr_size env s2

/-- `lv_table_set_col_width` (lv_table.c lines 194-204). -/
def lv_table_set_col_width (env : Env) (s : TableState) (colId : Nat) (w : Int) :
    TableState :=
  if LV_TABLE_COL_MAX ≤ colId then s
  else refr_size env { s with colW := fun i => if i = colId then w else s.colW i }

/-- `lv_table_set_cell_align` (lv_table.c lines 213-231): bounds check; if the
slot is NULL, `lv_mem_alloc(2)` a fresh buffer and set only its byte `[1]` to
the NUL terminator — the format byte `[0]` is left with whatever the allocator
put there (`env.freshFmt`); then read the format byte, overwrite the alignment
bits, and write it back.  No size refresh. -/
def lv_table_set_cell_align (env : Env) (s : TableState) (row col : Nat)
    (align : Fin 4) : TableState :=
  if s.rowCnt ≤ row ∨ s.colCnt ≤ col then s
  else
    match s.cellData with
    | none => s
    | some cd =>
      let cell := row * s.colCnt + col
      let c0 := (cd.getD cell none).getD { fmt := env.freshFmt, txt := [] }
      let cd2 := cd.set cell (some { c0 with fmt := { c0.fmt with align := align } })
      { s with cellData := some cd2 }

/-- `lv_table_set_cell_merge_right` (lv_table.c lines 240-260): as
`lv_table_set_cell_align` but for the right-merge bit, followed by a size
refresh. -/
def lv_table_set_cell_merge_right (env : Env) (s : TableState) (row col : Nat)
    (en : Bool) : TableState :=
  if s.rowCnt ≤ row ∨ s.colCnt ≤ col then s
  else
    match s.cellData with
    | none => s
    | some cd =>
      let cell := row * s.colCnt + col
      let c0 := (cd.getD cell none).getD { fmt := env.freshFmt, txt := [] }
      let cd2 := cd.set cell (some { c0 with fmt := { c0.fmt with rightMerge := en } })
      refr_size env { s with cellData := some cd2 }

/-- `lv_table_get_cell_value` (lv_table.c lines 295-307): empty string when
out of range or the slot is NULL, otherwise the text after the format byte. -/
def lv_table_get_cell_value (s : TableState) (row col : Nat) : List Char :=
  if s.rowCnt ≤ row ∨ s.colCnt ≤ col then []
  else
    match (s.cellData.getD []).getD (row * s.colCnt + col) none with
    | none => []
    | some c => c.txt

/-- `lv_table_get_cell_align` (lv_table.c lines 355-370): left alignment when
out of range or the slot is NULL. -/
def lv_table_get_cell_align (s : TableState) (row col : Nat) : Fin 4 :=
  if s.rowCnt ≤ row ∨ s.colCnt ≤ col then LV_LABEL_ALIGN_LEFT
  else
    match (s.cellData.getD []).getD (row * s.colCnt + col) none with
    | none => LV_LABEL_ALIGN_LEFT
    | some c => c.fmt.align

/-- `lv_table_get_cell_merge_right` (lv_table.c lines 379-395). -/
def lv_table_get_cell_merge_right (s : TableState) (row col : Nat) : Bool :=
  if s.rowCnt ≤ row ∨ s.colCnt ≤ col then false
  else
    match (s.cellData.getD []).getD (row * s.colCnt + col) none with
    | none => false
    | some c => c.fmt.rightMerge

/-- `lv_table_get_row_cnt` (lv_table.c lines 314-318). -/
def lv_table_get_row_cnt (s : TableState) : Nat := s.rowCnt

/-- `lv_table_get_col_cnt` (lv_table.c lines 325-329). -/
def lv_table_get_col_cnt (s : TableState) : Nat := s.colCnt

/-- `lv_table_get_col_width` (lv_table.c lines 337-346). -/
def lv_table_get_col_width (s : TableState) (colId : Nat) : Int :=
  if LV_TABLE_COL_MAX ≤ colId then 0 else s.colW colId

/-- The trace of the measurement walk of `get_row_height` (lv_table.c lines
601-627), projecting, for each allocated (non-absorbed) cell the outer loop
reaches, its column index and the merge-chain width `txt_w` before the
horizontal padding is subtracted. -/
def get_row_height_cells (cd : List (Option Cell)) (colW : Nat → Int)
    (colCnt rowStart : Nat) : Nat → Nat → Nat → List (Nat × Int)
  | 0, _, _ => []
  | fuel + 1, cell, col =>
    if cell < rowStart + colCnt then
      match cd.getD cell none with
      | none => get_row_height_cells cd colW colCnt rowStart fuel (cell + 1) (col + 1)
      | some _ =>
        let r := get_row_height_merge_chain cd colW cell col (colCnt - 1 - col) 0 (colW col)
        (col, r.2) :: get_row_height_cells cd colW colCnt rowStart fuel
          (cell + r.1 + 1) (col + r.1 + 1)
    else []

/-- The trace of one row of the main-draw loop of `lv_table_design`
(lv_table.c lines 459-517), projecting, for each cell the outer loop reaches
(a background rectangle is drawn for each of them), its column index and the
`cell_area` horizontal extent `(x1, x2)` after the merge-chain extension; the
next iteration restarts at the extended right edge (`cell_area.x1 =
cell_area.x2`). -/
def lv_table_design_cells (cd : List (Option Cell)) (colW : Nat → Int)
    (colCnt : Nat) : Nat → Nat → Nat → Int → List (Nat × Int × Int)
  | 0, _, _, _ => []
  | fuel + 1, cell, col, x =>
    if col < colCnt then
      let r := lv_table_design_merge_chain cd colW cell col (colCnt - 1 - col) 0 (x + colW col)
      (col, x, r.2) :: lv_table_design_cells cd colW colCnt fuel
        (cell + r.1 + 1) (col + r.1 + 1) r.2
    else []

/-- The right-merge flag of a stored slot as the code reads it: false for a
NULL slot, otherwise the merge bit of its format byte. -/
def merge_flag (cd : List (Option Cell)) (i : Nat) : Bool :=
  match cd.getD i none with
  | none => false
  | some c => c.fmt.rightMerge

/-- The store-size invariant of the spec: a store of exactly
`row_cnt * col_cnt` slots whenever that product is positive, and an
unallocated (NULL) store whenever it is zero. -/
def size_inv (s : TableState) : Prop :=
  (0 < s.rowCnt * s.colCnt →
    ∃ l, s.cellData = some l ∧ l.length = s.rowCnt * s.colCnt)
  ∧ (s.rowCnt * s.colCnt = 0 → s.cellData = none)

/-- Erase the alignment bits of one cell (used to state that layout does not
depend on them). -/
def cell_erase_align (c : Cell) : Cell :=
  { c with fmt := { c.fmt with align := 0 } }

/-- Erase the alignment bits of every stored cell of a table state, keeping
texts, merge flags, counts, widths, styles and size. -/
def erase_align (s : TableState) : TableState :=
  { s with cellData := s.cellData.map (List.map (Option.map cell_erase_align)) }

/-! ### Helper lemmas about list access -/

theorem list_getD_of_le {α : Type _} :
    ∀ (l : List α) (i : Nat) (d : α), l.length ≤ i → l.getD i d = d := by
  intro l
  induction l with
  | nil => intro i d _; cases i <;> rfl
  | cons a t ih =>
    intro i d h
    cases i with
    | zero => simp at h
    | succ n =>
      show t.getD n d = d
      exact ih n d (by simpa [Nat.succ_le_succ_iff] using h)

theorem list_getD_set_self {α : Type _} :
    ∀ (l : List α) (i : Nat) (v d : α), i < l.length → (l.set i v).getD i d = v := by
  intro l
  induction l with
  | nil => intro i v d h; simp at h
  | cons a t ih =>
    intro i v d h
    cases i with
    | zero => rfl
    | succ n =>
      show (t.set n v).getD n d = v
      exact ih n v d (by simpa using h)

theorem list_getD_map_opt {α β : Type _} (g : α → β) :
    ∀ (l : List (Option α)) (i : Nat),
      (l.map (Option.map g)).getD i none = Option.map g (l.getD i none) := by
  intro l
  induction l with
  | nil => intro i; cases i <;> rfl
  | cons a t ih =>
    intro i
    cases i with
    | zero => rfl
    | succ n => exact ih n

theorem getD_range_map {α : Type _} (d : α) :
    ∀ (n : Nat) (f : Nat → α) (i : Nat),
      ((List.range n).map f).getD i d = if i < n then f i else d := by
  intro n
  induction n with
  | zero => intro f i; simp
  | succ m ih =>
    intro f i
    rw [List.range_succ_eq_map, List.map_cons, List.map_map]
    cases i with
    | zero => simp
    | succ j =>
      show ((List.range m).map (f ∘ Nat.succ)).getD j d = _
      rw [ih (f ∘ Nat.succ) j]
      simp [Nat.succ_lt_succ_iff, Function.comp]

theorem foldl_range_add (f : Nat → Int) :
    ∀ (n : Nat) (a : Int),
      (List.range n).foldl (fun acc i => acc + f i) a = a + ∑ i ∈ Finset.range n, f i := by
  intro n
  induction n with
  | zero => intro a; simp
  | succ m ih =>
    intro a
    rw [List.range_succ, List.foldl_append, ih, Finset.sum_range_succ]
    simp [add_assoc]

theorem foldl_add_congr (f g : Nat → Int) :
    ∀ (l : List Nat) (a : Int), (∀ i ∈ l, f i = g i) →
      l.foldl (fun acc i => acc + f i) a = l.foldl (fun acc i => acc + g i) a := by
  intro l
  induction l with
  | nil => intro a _; rfl
  | cons b t ih =>
    intro a h
    show t.foldl _ (a + f b) = t.foldl _ (a + g b)
    rw [h b (List.mem_cons_self b t)]
    exact ih (a + g b) (fun i hi => h i (List.mem_cons_of_mem b hi))

theorem cell_index_lt {row col R C : Nat} (hr : row < R) (hc : col < C) :
    row * C + col < R * C :=
  calc row * C + col < row * C + C := Nat.add_lt_add_left hc _
    _ = (row + 1) * C := (Nat.succ_mul row C).symm
    _ ≤ R * C := Nat.mul_le_mul_right C hr

/-! ### Sample data used by the witnesses -/

def wStyle : Style := { padHor := 2, padVer := 3, fontH := 10 }

def wEnv : Env :=
  { measureH := fun t _ _ _ => (t.length : Int) * 3
    freshFmt := { align := 0, rightMerge := false } }

/-! ### Claim C9: table size formula -/

/-- Claim C9: for every table state, `refr_size` computes a widget width equal
to the sum of the first `col_cnt` column widths plus twice the background
style's horizontal padding, and a height equal to the sum of
`get_row_height r` over the rows plus twice the background style's vertical
padding. -/
theorem c9_refr_size_formula (env : Env) (s : TableState) :
    (refr_size env s).objW = (∑ i ∈ Finset.range s.colCnt, s.colW i) + 2 * s.bgStyle.padHor
    ∧ (refr_size env s).objH
        = (∑ r ∈ Finset.range s.rowCnt, get_row_height env s r) + 2 * s.bgStyle.padVer := by
  constructor
  · show (List.range s.colCnt).foldl (fun acc i => acc + s.colW i) 0 + s.bgStyle.padHor * 2 = _
    rw [foldl_range_add]
    ring
  · show (List.range s.rowCnt).foldl (fun acc i => acc + get_row_height env s i) 0
        + s.bgStyle.padVer * 2 = _
    rw [foldl_range_add]
    ring

/-! ### Claim C6: out-of-range behaviour -/

/-- Claim C6: for every `(row, col)` with `row ≥ row_cnt` or `col ≥ col_cnt`,
`lv_table_get_cell_value` returns the empty string,
`lv_table_get_cell_align` returns left, `lv_table_get_cell_merge_right`
returns false, and each of the three cell setters leaves the entire table
state unchanged. -/
theorem c6_out_of_range (env : Env) (s : TableState) (row col : Nat)
    (txt : List Char) (a : Fin 4) (en : Bool)
    (h : s.rowCnt ≤ row ∨ s.colCnt ≤ col) :
    lv_table_get_cell_value s row col = []
    ∧ lv_table_get_cell_align s row col = LV_LABEL_ALIGN_LEFT
    ∧ lv_table_get_cell_merge_right s row col = false
    ∧ lv_table_set_cell_value env s row col txt = s
    ∧ lv_table_set_cell_align env s row col a = s
    ∧ lv_table_set_cell_merge_right env s row col en = s := by
  refine ⟨?_, ?_, ?_, ?_, ?_, ?_⟩
  · rw [lv_table_get_cell_value, if_pos h]
  · rw [lv_table_get_cell_align, if_pos h]
  · rw [lv_table_get_cell_merge_right, if_pos h]
  · rw [lv_table_set_cell_value, if_pos h]
  · rw [lv_table_set_cell_align, if_pos h]
  · rw [lv_table_set_cell_merge_right, if_pos h]

def c6S : TableState :=
  { cellData := some [none]
    cellStyle := wStyle
    bgStyle := wStyle
    rowCnt := 1
    colCnt := 1
    colW := fun _ => 50
    objW := 0
    objH := 0 }

/-- Witness for C6 at the concrete out-of-range index `(row, col) = (5, 0)` of
a 1×1 table. -/
theorem c6_out_of_range_witness :
    (c6S.rowCnt ≤ 5 ∨ c6S.colCnt ≤ 0)
    ∧ (lv_table_get_cell_value c6S 5 0 = []
      ∧ lv_table_get_cell_align c6S 5 0 = LV_LABEL_ALIGN_LEFT
      ∧ lv_table_get_cell_merge_right c6S 5 0 = false
      ∧ lv_table_set_cell_value wEnv c6S 5 0 ['a'] = c6S
      ∧ lv_table_set_cell_align wEnv c6S 5 0 LV_LABEL_ALIGN_RIGHT = c6S
      ∧ lv_table_set_cell_merge_right wEnv c6S 5 0 true = c6S) :=
  ⟨Or.inl (by decide),
   c6_out_of_range wEnv c6S 5 0 ['a'] LV_LABEL_ALIGN_RIGHT true (Or.inl (by decide))⟩

/-! ### In-range getter lemmas shared by several claims -/

theorem get_cell_value_of_slot (s : TableState) (row col : Nat) (c : Cell)
    (h : ¬(s.rowCnt ≤ row ∨ s.colCnt ≤ col))
    (hslot : (s.cellData.getD []).getD (row * s.colCnt + col) none = some c) :
    lv_table_get_cell_value s row col = c.txt := by
  rw [lv_table_get_cell_value, if_neg h, hslot]

theorem get_cell_value_of_empty (s : TableState) (row col : Nat)
    (h : ¬(s.rowCnt ≤ row ∨ s.colCnt ≤ col))
    (hslot : (s.cellData.getD []).getD (row * s.colCnt + col) none = none) :
    lv_table_get_cell_value s row col = [] := by
  rw [lv_table_get_cell_value, if_neg h, hslot]

theorem get_cell_align_of_slot (s : TableState) (row col : Nat) (c : Cell)
    (h : ¬(s.rowCnt ≤ row ∨ s.colCnt ≤ col))
    (hslot : (s.cellData.getD []).getD (row * s.colCnt + col) none = some c) :
    lv_table_get_cell_align s row col = c.fmt.align := by
  rw [lv_table_get_cell_align, if_neg h, hslot]

theorem get_cell_merge_of_slot (s : TableState) (row col : Nat) (c : Cell)
    (h : ¬(s.rowCnt ≤ row ∨ s.colCnt ≤ col))
    (hslot : (s.cellData.getD []).getD (row * s.colCnt + col) none = some c) :
    lv_table_get_cell_merge_right s row col = c.fmt.rightMerge := by
  rw [lv_table_get_cell_merge_right, if_neg h, hslot]

/-! ### Claim C7: value update preserves the format byte -/

/-- Claim C7: for every valid `(row, col)` whose slot is already allocated,
`lv_table_set_cell_value` replaces the text but leaves the slot's format byte
(alignment and right-merge) exactly as it was; in particular the alignment
and merge flag read back unchanged after the value update. -/
theorem c7_set_value_preserves_format (env : Env) (s : TableState) (row col : Nat)
    (txt : List Char) (cd : List (Option Cell)) (c : Cell)
    (hr : row < s.rowCnt) (hc : col < s.colCnt) (hcd : s.cellData = some cd)
    (hslot : cd.getD (row * s.colCnt + col) none = some c) :
    ((lv_table_set_cell_value env s row col txt).cellData.getD []).getD
        (row * s.colCnt + col) none = some { fmt := c.fmt, txt := txt }
    ∧ lv_table_get_cell_align (lv_table_set_cell_value env s row col txt) row col
        = c.fmt.align
    ∧ lv_table_get_cell_merge_right (lv_table_set_cell_value env s row col txt) row col
        = c.fmt.rightMerge := by
  have hguard : ¬(s.rowCnt ≤ row ∨ s.colCnt ≤ col) := by omega
  have hlt : row * s.colCnt + col < cd.length := by
    by_contra hn
    rw [list_getD_of_le cd _ none (Nat.le_of_not_lt hn)] at hslot
    exact Option.noConfusion hslot
  have hset : lv_table_set_cell_value env s row col txt
      = refr_size env { s with cellData := some (cd.set (row * s.colCnt + col) (some { fmt := c.fmt, txt := txt })) } := by
    rw [lv_table_set_cell_value, if_neg hguard, hcd]
    simp only [hslot]
  have hcell : ((lv_table_set_cell_value env s row col txt).cellData.getD []).getD
      (row * s.colCnt + col) none = some { fmt := c.fmt, txt := txt } := by
    rw [hset]
    exact list_getD_set_self cd _ _ none hlt
  refine ⟨hcell, ?_, ?_⟩
  · rw [hset] at hcell ⊢
    exact get_cell_align_of_slot _ row col { fmt := c.fmt, txt := txt } hguard hcell
  · rw [hset] at hcell ⊢
    exact get_cell_merge_of_slot _ row col { fmt := c.fmt, txt := txt } hguard hcell

def c7S : TableState :=
  { cellData := some [some { fmt := { align := 2, rightMerge := true }, txt := ['h', 'i'] }]
    cellStyle := wStyle
    bgStyle := wStyle
    rowCnt := 1
    colCnt := 1
    colW := fun _ => 50
    objW := 0
    objH := 0 }

def c7Cell : Cell := { fmt := { align := 2, rightMerge := true }, txt := ['h', 'i'] }

/-- Witness for C7: updating the value of a right-aligned, merged cell keeps
its alignment and merge flag. -/
theorem c7_set_value_preserves_format_witness :
    (0 < c7S.rowCnt ∧ 0 < c7S.colCnt
      ∧ c7S.cellData = some [some c7Cell]
      ∧ [some c7Cell].getD (0 * c7S.colCnt + 0) none = some c7Cell)
    ∧ (((lv_table_set_cell_value wEnv c7S 0 0 ['z']).cellData.getD []).getD
          (0 * c7S.colCnt + 0) none = some { fmt := c7Cell.fmt, txt := ['z'] }
      ∧ lv_table_get_cell_align (lv_table_set_cell_value wEnv c7S 0 0 ['z']) 0 0
          = c7Cell.fmt.align
      ∧ lv_table_get_cell_merge_right (lv_table_set_cell_value wEnv c7S 0 0 ['z']) 0 0
          = c7Cell.fmt.rightMerge) :=
  ⟨⟨by decide, by decide, rfl, by decide⟩,
   c7_set_value_preserves_format wEnv c7S 0 0 ['z'] [some c7Cell] c7Cell
     (by decide) (by decide) rfl (by decide)⟩

/-! ### Claim C8: value round-trip and value stability -/

/-- Claim C8: for every valid `(row, col)` of a table whose store is allocated
with the invariant size, reading a cell after `lv_table_set_cell_value`
returns exactly the text that was written, and setting the alignment or the
right-merge flag of that cell leaves `lv_table_get_cell_value`'s result
unchanged. -/
theorem get_value_after_set (s : TableState) (row col : Nat)
    (cd : List (Option Cell)) (v : Cell)
    (h : ¬(s.rowCnt ≤ row ∨ s.colCnt ≤ col)) (hlt : row * s.colCnt + col < cd.length)
    (hcd : s.cellData = some (cd.set (row * s.colCnt + col) (some v))) :
    lv_table_get_cell_value s row col = v.txt := by
  apply get_cell_value_of_slot s row col v h
  rw [hcd]
  exact list_getD_set_self cd _ _ none hlt

theorem c8_value_roundtrip (env : Env) (s : TableState) (row col : Nat)
    (txt : List Char) (a : Fin 4) (en : Bool) (cd : List (Option Cell))
    (hr : row < s.rowCnt) (hc : col < s.colCnt) (hcd : s.cellData = some cd)
    (hlen : cd.length = s.rowCnt * s.colCnt) :
    lv_table_get_cell_value (lv_table_set_cell_value env s row col txt) row col = txt
    ∧ lv_table_get_cell_value (lv_table_set_cell_align env s row col a) row col
        = lv_table_get_cell_value s row col
    ∧ lv_table_get_cell_value (lv_table_set_cell_merge_right env s row col en) row col
        = lv_table_get_cell_value s row col := by
  have hguard : ¬(s.rowCnt ≤ row ∨ s.colCnt ≤ col) := by omega
  have hlt : row * s.colCnt + col < cd.length := by
    rw [hlen]; exact cell_index_lt hr hc
  refine ⟨?_, ?_, ?_⟩
  · cases hslot : cd.getD (row * s.colCnt + col) none with
    | none =>
      have hset : lv_table_set_cell_value env s row col txt
          = refr_size env { s with cellData := some (cd.set (row * s.colCnt + col) (some { fmt := { align := LV_LABEL_ALIGN_LEFT, rightMerge := false }, txt := txt })) } := by
        rw [lv_table_set_cell_value, if_neg hguard, hcd]
        simp only [hslot]
      rw [hset]
      exact get_value_after_set _ row col cd
        { fmt := { align := LV_LABEL_ALIGN_LEFT, rightMerge := false }, txt := txt }
        hguard hlt rfl
    | some c =>
      have hset : lv_table_set_cell_value env s row col txt
          = refr_size env { s with cellData := some (cd.set (row * s.colCnt + col) (some { fmt := c.fmt, txt := txt })) } := by
        rw [lv_table_set_cell_value, if_neg hguard, hcd]
        simp only [hslot]
      rw [hset]
      exact get_value_after_set _ row col cd { fmt := c.fmt, txt := txt } hguard hlt rfl
  · cases hslot : cd.getD (row * s.colCnt + col) none with
    | none =>
      have hset : lv_table_set_cell_align env s row col a
          = { s with cellData := some (cd.set (row * s.colCnt + col) (some { fmt := { env.freshFmt with align := a }, txt := [] })) } := by
        rw [lv_table_set_cell_align, if_neg hguard, hcd]
        simp only [hslot, Option.getD_none]
      rw [hset, get_cell_value_of_empty s row col hguard (by rw [hcd]; exact hslot)]
      exact get_value_after_set _ row col cd
        { fmt := { env.freshFmt with align := a }, txt := [] } hguard hlt rfl
    | some c =>
      have hset : lv_table_set_cell_align env s row col a
          = { s with cellData := some (cd.set (row * s.colCnt + col) (some { fmt := { c.fmt with align := a }, txt := c.txt })) } := by
        rw [lv_table_set_cell_align, if_neg hguard, hcd]
        simp only [hslot, Option.getD_some]
      rw [hset, get_cell_value_of_slot s row col c hguard (by rw [hcd]; exact hslot)]
      exact get_value_after_set _ row col cd
        { fmt := { c.fmt with align := a }, txt := c.txt } hguard hlt rfl
  · cases hslot : cd.getD (row * s.colCnt + col) none with
    | none =>
      have hset : lv_table_set_cell_merge_right env s row col en
          = refr_size env { s with cellData := some (cd.set (row * s.colCnt + col) (some { fmt := { env.freshFmt with rightMerge := en }, txt := [] })) } := by
        rw [lv_table_set_cell_merge_right, if_neg hguard, hcd]
        simp only [hslot, Option.getD_none]
      rw [hset, get_cell_value_of_empty s row col hguard (by rw [hcd]; exact hslot)]
      exact get_value_after_set _ row col cd
        { fmt := { env.freshFmt with rightMerge := en }, txt := [] } hguard hlt rfl
    | some c =>
      have hset : lv_table_set_cell_merge_right env s row col en
          = refr_size env { s with cellData := some (cd.set (row * s.colCnt + col) (some { fmt := { c.fmt with rightMerge := en }, txt := c.txt })) } := by
        rw [lv_table_set_cell_merge_right, if_neg hguard, hcd]
        simp only [hslot, Option.getD_some]
      rw [hset, get_cell_value_of_slot s row col c hguard (by rw [hcd]; exact hslot)]
      exact get_value_after_set _ row col cd
        { fmt := { c.fmt with rightMerge := en }, txt := c.txt } hguard hlt rfl

def c8S : TableState :=
  { cellData := some [none, none]
    cellStyle := wStyle
    bgStyle := wStyle
    rowCnt := 1
    colCnt := 2
    colW := fun _ => 50
    objW := 0
    objH := 0 }

/-- Witness for C8 at the concrete cell `(0, 1)` of a 1×2 table. -/
theorem c8_value_roundtrip_witness :
    (0 < c8S.rowCnt ∧ 1 < c8S.colCnt
      ∧ c8S.cellData = some [none, none]
      ∧ ([none, none] : List (Option Cell)).length = c8S.rowCnt * c8S.colCnt)
    ∧ (lv_table_get_cell_value (lv_table_set_cell_value wEnv c8S 0 1 ['y', 'o']) 0 1 = ['y', 'o']
      ∧ lv_table_get_cell_value (lv_table_set_cell_align wEnv c8S 0 1 LV_LABEL_ALIGN_CENTER) 0 1
          = lv_table_get_cell_value c8S 0 1
      ∧ lv_table_get_cell_value (lv_table_set_cell_merge_right wEnv c8S 0 1 true) 0 1
          = lv_table_get_cell_value c8S 0 1) :=
  ⟨⟨by decide, by decide, rfl, by decide⟩,
   c8_value_roundtrip wEnv c8S 0 1 ['y', 'o'] LV_LABEL_ALIGN_CENTER true [none, none]
     (by decide) (by decide) rfl (by decide)⟩

/-! ### Claim C3: resize freshness -/

theorem store_realloc_length (cd : Option (List (Option Cell))) (n : Nat) :
    (store_realloc cd n).length = n := by
  simp [store_realloc]

theorem store_realloc_getD (cd : Option (List (Option Cell))) (n i : Nat) :
    (store_realloc cd n).getD i none
      = if i < n then (cd.getD []).getD i none else none := by
  rw [store_realloc, getD_range_map]

theorem store_realloc_fresh (cd : Option (List (Option Cell))) (n i : Nat)
    (h : (cd.getD []).length ≤ i) : (store_realloc cd n).getD i none = none := by
  rw [store_realloc_getD]
  split
  · exact list_getD_of_le _ i none h
  · rfl

theorem set_row_cnt_cellData_pos (env : Env) (s : TableState) (newR : Nat)
    (h : 0 < newR ∧ 0 < s.colCnt) :
    (lv_table_set_row_cnt env s newR).cellData
      = some (store_realloc s.cellData (newR * s.colCnt)) := by
  simp only [lv_table_set_row_cnt, refr_size]
  rw [if_pos h]

theorem set_row_cnt_cellData_zero (env : Env) (s : TableState) (newR : Nat)
    (h : ¬(0 < newR ∧ 0 < s.colCnt)) :
    (lv_table_set_row_cnt env s newR).cellData = none := by
  simp only [lv_table_set_row_cnt, refr_size]
  rw [if_neg h]

theorem set_col_cnt_cellData_pos (env : Env) (s : TableState) (newC : Nat)
    (hC : newC < LV_TABLE_COL_MAX) (h : 0 < s.rowCnt ∧ 0 < newC) :
    (lv_table_set_col_cnt env s newC).cellData
      = some (store_realloc s.cellData (s.rowCnt * newC)) := by
  simp only [lv_table_set_col_cnt, refr_size]
  rw [if_neg (by omega : ¬LV_TABLE_COL_MAX ≤ newC), if_pos h]

theorem set_col_cnt_cellData_zero (env : Env) (s : TableState) (newC : Nat)
    (hC : newC < LV_TABLE_COL_MAX) (h : ¬(0 < s.rowCnt ∧ 0 < newC)) :
    (lv_table_set_col_cnt env s newC).cellData = none := by
  simp only [lv_table_set_col_cnt, refr_size]
  rw [if_neg (by omega : ¬LV_TABLE_COL_MAX ≤ newC), if_neg h]

/-- Claim C3: when `lv_table_set_row_cnt` or `lv_table_set_col_cnt` keeps the
store allocated, the store gets exactly the new `row_cnt * col_cnt` slots and
every slot beyond the old store length is empty; when the new product is zero
the store is freed to NULL; and resizing through zero and back to a nonzero
count yields an all-empty grid (no resurrected content). -/
theorem c3_resize_freshness (env : Env) (s : TableState) (newR newC : Nat)
    (hC : newC < LV_TABLE_COL_MAX) :
    ((0 < newR ∧ 0 < s.colCnt) →
      ((lv_table_set_row_cnt env s newR).cellData.getD []).length = newR * s.colCnt
      ∧ ∀ i, (s.cellData.getD []).length ≤ i →
          ((lv_table_set_row_cnt env s newR).cellData.getD []).getD i none = none)
    ∧ (¬(0 < newR ∧ 0 < s.colCnt) → (lv_table_set_row_cnt env s newR).cellData = none)
    ∧ ((0 < s.rowCnt ∧ 0 < newC) →
      ((lv_table_set_col_cnt env s newC).cellData.getD []).length = s.rowCnt * newC
      ∧ ∀ i, (s.cellData.getD []).length ≤ i →
          ((lv_table_set_col_cnt env s newC).cellData.getD []).getD i none = none)
    ∧ (¬(0 < s.rowCnt ∧ 0 < newC) → (lv_table_set_col_cnt env s newC).cellData = none)
    ∧ (∀ i, ((lv_table_set_row_cnt env (lv_table_set_row_cnt env s 0) newR).cellData.getD
        []).getD i none = none) := by
  refine ⟨?_, ?_, ?_, ?_, ?_⟩
  · intro h
    rw [set_row_cnt_cellData_pos env s newR h]
    exact ⟨store_realloc_length s.cellData _,
      fun i hi => store_realloc_fresh s.cellData _ i hi⟩
  · exact set_row_cnt_cellData_zero env s newR
  · intro h
    rw [set_col_cnt_cellData_pos env s newC hC h]
    exact ⟨store_realloc_length s.cellData _,
      fun i hi => store_realloc_fresh s.cellData _ i hi⟩
  · exact set_col_cnt_cellData_zero env s newC hC
  · intro i
    have h0 : (lv_table_set_row_cnt env s 0).cellData = none :=
      set_row_cnt_cellData_zero env s 0 (by omega)
    by_cases h : 0 < newR ∧ 0 < (lv_table_set_row_cnt env s 0).colCnt
    · rw [set_row_cnt_cellData_pos env _ newR h]
      exact store_realloc_fresh _ _ i (by rw [h0]; exact Nat.zero_le i)
    · rw [set_row_cnt_cellData_zero env _ newR h]
      exact list_getD_of_le [] i none (Nat.zero_le i)

def c3S : TableState :=
  { cellData := some [some { fmt := { align := 0, rightMerge := false }, txt := ['a'] }, none]
    cellStyle := wStyle
    bgStyle := wStyle
    rowCnt := 1
    colCnt := 2
    colW := fun _ => 50
    objW := 0
    objH := 0 }

/-- Witness for C3: growing a 1×2 table to 3 rows, shrinking a column count,
and resizing through zero, at concrete inputs. -/
theorem c3_resize_freshness_witness :
    (2 < LV_TABLE_COL_MAX)
    ∧ (((0 < 3 ∧ 0 < c3S.colCnt) →
        ((lv_table_set_row_cnt wEnv c3S 3).cellData.getD []).length = 3 * c3S.colCnt
        ∧ ∀ i, (c3S.cellData.getD []).length ≤ i →
            ((lv_table_set_row_cnt wEnv c3S 3).cellData.getD []).getD i none = none)
      ∧ (¬(0 < 3 ∧ 0 < c3S.colCnt) → (lv_table_set_row_cnt wEnv c3S 3).cellData = none)
      ∧ ((0 < c3S.rowCnt ∧ 0 < 2) →
        ((lv_table_set_col_cnt wEnv c3S 2).cellData.getD []).length = c3S.rowCnt * 2
        ∧ ∀ i, (c3S.cellData.getD []).length ≤ i →
            ((lv_table_set_col_cnt wEnv c3S 2).cellData.getD []).getD i none = none)
      ∧ (¬(0 < c3S.rowCnt ∧ 0 < 2) → (lv_table_set_col_cnt wEnv c3S 2).cellData = none)
      ∧ (∀ i, ((lv_table_set_row_cnt wEnv (lv_table_set_row_cnt wEnv c3S 0) 3).cellData.getD
          []).getD i none = none)) :=
  ⟨by decide, c3_resize_freshness wEnv c3S 3 2 (by decide)⟩

/-! ### Claim C1: the store-size invariant is broken by copy-creation -/

/-- A 1×1 table built through the public API: create, then one row and one
column.  Its store is allocated with exactly one (empty) slot. -/
def c1Src : TableState :=
  lv_table_set_col_cnt wEnv (lv_table_set_row_cnt wEnv (lv_table_create wEnv wStyle wStyle 100 none) 1) 1

/-- The table copy-constructed from `c1Src`. -/
def c1Copy : TableState := lv_table_create wEnv wStyle wStyle 100 (some c1Src)

/-- Claim C1 fails on the code: the source table satisfies the store-size
invariant, but the table copy-constructed from it has `row_cnt = col_cnt = 1`
(so `row_cnt * col_cnt = 1 > 0`) while its `cell_data` store is still NULL —
`lv_table_create` copies the counts but never allocates the copy's store. -/
theorem c1_copy_breaks_size_inv :
    size_inv c1Src
    ∧ c1Copy.rowCnt = 1 ∧ c1Copy.colCnt = 1 ∧ c1Copy.cellData = none
    ∧ ¬ size_inv c1Copy := by
  refine ⟨⟨fun _ => ⟨[none], rfl, rfl⟩, fun h => absurd h (by decide)⟩,
    rfl, rfl, rfl, fun h => ?_⟩
  obtain ⟨l, hl, -⟩ := h.1 (by decide)
  have : (none : Option (List (Option Cell))) = some l := hl
  exact Option.noConfusion this

/-! ### Claim C2: lazy slot creation reads an uninitialized format byte -/

/-- An environment whose allocator happens to leave the merge bit set in the
fresh buffer's format byte. -/
def c2EnvMerge : Env :=
  { measureH := fun _ _ _ _ => 0, freshFmt := { align := 0, rightMerge := true } }

/-- An environment whose allocator happens to leave the alignment bits at
`LV_LABEL_ALIGN_RIGHT` in the fresh buffer's format byte. -/
def c2EnvAlign : Env :=
  { measureH := fun _ _ _ _ => 0, freshFmt := { align := 2, rightMerge := false } }

/-- A 1×1 table with one unallocated (NULL) slot. -/
def c2S : TableState :=
  { cellData := some [none]
    cellStyle := wStyle
    bgStyle := wStyle
    rowCnt := 1
    colCnt := 1
    colW := fun _ => 50
    objW := 0
    objH := 0 }

/-- Claim C2 fails on the code: `lv_table_set_cell_align` on a missing slot
allocates a 2-byte buffer and sets only its byte `[1]`, then reads the format
byte `[0]` before ever writing it, so the created slot's right-merge flag is
whatever bit the allocator left there — not the documented `false`; dually,
`lv_table_set_cell_merge_right` leaves the created slot's alignment at the
allocator's leftover bits — not the documented left.  (The text of the created
slot is empty, as claimed.) -/
theorem c2_lazy_slot_format_uninitialized :
    lv_table_get_cell_merge_right
        (lv_table_set_cell_align c2EnvMerge c2S 0 0 LV_LABEL_ALIGN_LEFT) 0 0 = true
    ∧ lv_table_get_cell_align
        (lv_table_set_cell_merge_right c2EnvAlign c2S 0 0 true) 0 0 = LV_LABEL_ALIGN_RIGHT
    ∧ lv_table_get_cell_value
        (lv_table_set_cell_align c2EnvMerge c2S 0 0 LV_LABEL_ALIGN_LEFT) 0 0 = [] := by
  refine ⟨by decide, by decide, by decide⟩

/-! ### Claim C5: the two merge-span computations agree -/

theorem chain_shift (fuel : Nat) :
    ∀ (cd : List (Option Cell)) (colW : Nat → Int) (cell col colMerge : Nat) (a b : Int),
    (lv_table_design_merge_chain cd colW cell col fuel colMerge a).1
      = (get_row_height_merge_chain cd colW cell col fuel colMerge b).1
    ∧ (lv_table_design_merge_chain cd colW cell col fuel colMerge a).2 - a
      = (get_row_height_merge_chain cd colW cell col fuel colMerge b).2 - b := by
  induction fuel with
  | zero =>
    intro cd colW cell col cm a b
    exact ⟨rfl, by simp [lv_table_design_merge_chain, get_row_height_merge_chain]⟩
  | succ n ih =>
    intro cd colW cell col cm a b
    simp only [lv_table_design_merge_chain, get_row_height_merge_chain]
    cases h : cd.getD (cell + cm) none with
    | none =>
      dsimp only
      exact ⟨rfl, by simp⟩
    | some c =>
      dsimp only
      by_cases hm : c.fmt.rightMerge = true
      · rw [if_pos hm, if_pos hm]
        obtain ⟨h1, h2⟩ :=
          ih cd colW cell col (cm + 1) (a + colW (col + cm + 1)) (b + colW (col + cm + 1))
        exact ⟨h1, by omega⟩
      · rw [if_neg hm, if_neg hm]
        exact ⟨rfl, by simp⟩

theorem design_chain_of_none (cd : List (Option Cell)) (colW : Nat → Int)
    (cell col : Nat) (h : cd.getD cell none = none) (fuel : Nat) (a : Int) :
    lv_table_design_merge_chain cd colW cell col fuel 0 a = (0, a) := by
  cases fuel with
  | zero => rfl
  | succ n =>
    simp only [lv_table_design_merge_chain, Nat.add_zero, h]

/-- The span a drawn cell contributes to the measurement comparison: `none`
for an unallocated anchor slot (which `get_row_height` skips), otherwise the
anchor's column paired with the width `x2 - x1` of its drawn merged span. -/
def span_of_drawn (cd : List (Option Cell)) (rowStart : Nat)
    (e : Nat × Int × Int) : Option (Nat × Int) :=
  match cd.getD (rowStart + e.1) none with
  | some _ => some (e.1, e.2.2 - e.2.1)
  | none => none

theorem span_of_drawn_some (cd : List (Option Cell)) (rowStart : Nat)
    (e : Nat × Int × Int) (c : Cell) (hs : cd.getD (rowStart + e.1) none = some c) :
    span_of_drawn cd rowStart e = some (e.1, e.2.2 - e.2.1) := by
  rw [span_of_drawn, hs]

theorem span_of_drawn_none (cd : List (Option Cell)) (rowStart : Nat)
    (e : Nat × Int × Int) (hs : cd.getD (rowStart + e.1) none = none) :
    span_of_drawn cd rowStart e = none := by
  rw [span_of_drawn, hs]

/-- Claim C5: for every store, column-width map, column count and row, the
merged-span extent computed by the renderer's main-draw loop and the span
width accumulated by `get_row_height` agree: the measurement trace lists
exactly the allocated anchor cells of the drawing trace, each with the width
(`x2 - x1`) of its drawn merged span, so the two loops visit the same columns
and resolve every merge chain identically. -/
theorem c5_renderer_measurement_agree (cd : List (Option Cell)) (colW : Nat → Int)
    (colCnt rowStart : Nat) (fuel : Nat) :
    ∀ (col : Nat) (x : Int),
    get_row_height_cells cd colW colCnt rowStart fuel (rowStart + col) col
      = (lv_table_design_cells cd colW colCnt fuel (rowStart + col) col x).filterMap
          (span_of_drawn cd rowStart) := by
  induction fuel with
  | zero => intro col x; rfl
  | succ n ih =>
    intro col x
    simp only [get_row_height_cells, lv_table_design_cells]
    by_cases hcol : col < colCnt
    · rw [if_pos (by omega : rowStart + col < rowStart + colCnt), if_pos hcol]
      cases h : cd.getD (rowStart + col) none with
      | none =>
        dsimp only
        rw [design_chain_of_none cd colW (rowStart + col) col h]
        rw [List.filterMap_cons]
        rw [span_of_drawn_none cd rowStart _ h]
        dsimp only
        exact ih (col + 1) (x + colW col)
      | some c =>
        dsimp only
        set rM := get_row_height_merge_chain cd colW (rowStart + col) col
          (colCnt - 1 - col) 0 (colW col) with hrM
        set rD := lv_table_design_merge_chain cd colW (rowStart + col) col
          (colCnt - 1 - col) 0 (x + colW col) with hrD
        obtain ⟨h1, h2⟩ := chain_shift (colCnt - 1 - col) cd colW (rowStart + col) col 0
          (x + colW col) (colW col)
        rw [← hrD, ← hrM] at h1 h2
        rw [List.filterMap_cons]
        rw [span_of_drawn_some cd rowStart (col, x, rD.2) c h]
        dsimp only
        have h3 : rD.2 - x = rM.2 := by omega
        rw [h3, h1]
        have hidx : rowStart + col + rM.1 + 1 = rowStart + (col + rM.1 + 1) := by omega
        rw [hidx]
        exact congrArg _ (ih (col + rM.1 + 1) rD.2)
    · rw [if_neg (by omega : ¬rowStart + col < rowStart + colCnt), if_neg hcol]
      rfl

/-! ### Step lemmas for the row walks -/

theorem chain_step_merge (cd : List (Option Cell)) (colW : Nat → Int)
    (cell col fuel cm : Nat) (acc : Int) (c : Cell)
    (h : cd.getD (cell + cm) none = some c) (hm : c.fmt.rightMerge = true) :
    get_row_height_merge_chain cd colW cell col (fuel + 1) cm acc
      = get_row_height_merge_chain cd colW cell col fuel (cm + 1)
          (acc + colW (col + cm + 1)) := by
  simp only [get_row_height_merge_chain, h]
  rw [if_pos hm]

theorem chain_stop_none (cd : List (Option Cell)) (colW : Nat → Int)
    (cell col fuel cm : Nat) (acc : Int)
    (h : cd.getD (cell + cm) none = none) :
    get_row_height_merge_chain cd colW cell col (fuel + 1) cm acc = (cm, acc) := by
  simp only [get_row_height_merge_chain, h]

theorem chain_stop_nomerge (cd : List (Option Cell)) (colW : Nat → Int)
    (cell col fuel cm : Nat) (acc : Int) (c : Cell)
    (h : cd.getD (cell + cm) none = some c) (hm : c.fmt.rightMerge = false) :
    get_row_height_merge_chain cd colW cell col (fuel + 1) cm acc = (cm, acc) := by
  simp only [get_row_height_merge_chain, h]
  rw [if_neg (by simp [hm])]

theorem cells_stop (cd : List (Option Cell)) (colW : Nat → Int)
    (colCnt rowStart fuel cell col : Nat) (hg : ¬cell < rowStart + colCnt) :
    get_row_height_cells cd colW colCnt rowStart (fuel + 1) cell col = [] := by
  simp only [get_row_height_cells]
  rw [if_neg hg]

theorem cells_skip (cd : List (Option Cell)) (colW : Nat → Int)
    (colCnt rowStart fuel cell col : Nat) (hg : cell < rowStart + colCnt)
    (h : cd.getD cell none = none) :
    get_row_height_cells cd colW colCnt rowStart (fuel + 1) cell col
      = get_row_height_cells cd colW colCnt rowStart fuel (cell + 1) (col + 1) := by
  simp only [get_row_height_cells, h]
  rw [if_pos hg]

theorem cells_emit (cd : List (Option Cell)) (colW : Nat → Int)
    (colCnt rowStart fuel cell col : Nat) (c : Cell) (hg : cell < rowStart + colCnt)
    (h : cd.getD cell none = some c) :
    get_row_height_cells cd colW colCnt rowStart (fuel + 1) cell col
      = (col, (get_row_height_merge_chain cd colW cell col (colCnt - 1 - col) 0 (colW col)).2)
        :: get_row_height_cells cd colW colCnt rowStart fuel
            (cell + (get_row_height_merge_chain cd colW cell col (colCnt - 1 - col) 0 (colW col)).1 + 1)
            (col + (get_row_height_merge_chain cd colW cell col (colCnt - 1 - col) 0 (colW col)).1 + 1) := by
  simp only [get_row_height_cells, h]
  rw [if_pos hg]

theorem design_cells_stop (cd : List (Option Cell)) (colW : Nat → Int)
    (colCnt fuel cell col : Nat) (x : Int) (hg : ¬col < colCnt) :
    lv_table_design_cells cd colW colCnt (fuel + 1) cell col x = [] := by
  simp only [lv_table_design_cells]
  rw [if_neg hg]

theorem design_cells_step (cd : List (Option Cell)) (colW : Nat → Int)
    (colCnt fuel cell col : Nat) (x : Int) (hg : col < colCnt) :
    lv_table_design_cells cd colW colCnt (fuel + 1) cell col x
      = (col, x, (lv_table_design_merge_chain cd colW cell col (colCnt - 1 - col) 0 (x + colW col)).2)
        :: lv_table_design_cells cd colW colCnt fuel
            (cell + (lv_table_design_merge_chain cd colW cell col (colCnt - 1 - col) 0 (x + colW col)).1 + 1)
            (col + (lv_table_design_merge_chain cd colW cell col (colCnt - 1 - col) 0 (x + colW col)).1 + 1)
            (lv_table_design_merge_chain cd colW cell col (colCnt - 1 - col) 0 (x + colW col)).2 := by
  simp only [lv_table_design_cells]
  rw [if_pos hg]

theorem scan_stop (env : Env) (st : Style) (cd : List (Option Cell))
    (colW : Nat → Int) (colCnt rowStart fuel cell col : Nat) (hMax : Int)
    (hg : ¬cell < rowStart + colCnt) :
    get_row_height_scan env st cd colW colCnt rowStart (fuel + 1) cell col hMax = hMax := by
  simp only [get_row_height_scan]
  rw [if_neg hg]

theorem scan_skip (env : Env) (st : Style) (cd : List (Option Cell))
    (colW : Nat → Int) (colCnt rowStart fuel cell col : Nat) (hMax : Int)
    (hg : cell < rowStart + colCnt) (h : cd.getD cell none = none) :
    get_row_height_scan env st cd colW colCnt rowStart (fuel + 1) cell col hMax
      = get_row_height_scan env st cd colW colCnt rowStart fuel (cell + 1) (col + 1) hMax := by
  simp only [get_row_height_scan, h]
  rw [if_pos hg]

theorem scan_emit (env : Env) (st : Style) (cd : List (Option Cell))
    (colW : Nat → Int) (colCnt rowStart fuel cell col : Nat) (hMax : Int) (c : Cell)
    (hg : cell < rowStart + colCnt) (h : cd.getD cell none = some c) :
    get_row_height_scan env st cd colW colCnt rowStart (fuel + 1) cell col hMax
      = get_row_height_scan env st cd colW colCnt rowStart fuel
          (cell + (get_row_height_merge_chain cd colW cell col (colCnt - 1 - col) 0 (colW col)).1 + 1)
          (col + (get_row_height_merge_chain cd colW cell col (colCnt - 1 - col) 0 (colW col)).1 + 1)
          (max (env.measureH c.txt st
            ((get_row_height_merge_chain cd colW cell col (colCnt - 1 - col) 0 (colW col)).2
              - 2 * st.padHor) TxtFlag.flagNone) hMax) := by
  simp only [get_row_height_scan, h]
  rw [if_pos hg]

/-! ### Claim C4: merge-chain resolution for the scenario (r,0),(r,1) merged -/

theorem get_chain_le (fuel : Nat) :
    ∀ (cd : List (Option Cell)) (colW : Nat → Int) (cell col cm : Nat) (acc : Int),
    (get_row_height_merge_chain cd colW cell col fuel cm acc).1 ≤ cm + fuel := by
  induction fuel with
  | zero => intro cd colW cell col cm acc; exact Nat.le_refl cm
  | succ n ih =>
    intro cd colW cell col cm acc
    cases h : cd.getD (cell + cm) none with
    | none => rw [chain_stop_none cd colW cell col n cm acc h]; omega
    | some c =>
      by_cases hm : c.fmt.rightMerge = true
      · rw [chain_step_merge cd colW cell col n cm acc c h hm]
        have := ih cd colW cell col (cm + 1) (acc + colW (col + cm + 1))
        omega
      · rw [chain_stop_nomerge cd colW cell col n cm acc c h
          (by revert hm; cases c.fmt.rightMerge <;> simp)]
        omega

theorem get_chain_012 (cd : List (Option Cell)) (colW : Nat → Int) (rowStart : Nat)
    (c0 c1 : Cell)
    (h0 : cd.getD rowStart none = some c0) (hm0 : c0.fmt.rightMerge = true)
    (h1 : cd.getD (rowStart + 1) none = some c1) (hm1 : c1.fmt.rightMerge = true)
    (h2 : merge_flag cd (rowStart + 2) = false)
    (fuel : Nat) (hf : 2 ≤ fuel) (a : Int) :
    get_row_height_merge_chain cd colW rowStart 0 fuel 0 a
      = (2, a + colW 1 + colW 2) := by
  obtain ⟨k, rfl⟩ : ∃ k, fuel = k + 2 := ⟨fuel - 2, by omega⟩
  rw [chain_step_merge cd colW rowStart 0 (k + 1) 0 a c0 h0 hm0]
  rw [chain_step_merge cd colW rowStart 0 k (0 + 1) (a + colW (0 + 0 + 1)) c1 h1 hm1]
  cases k with
  | zero => rfl
  | succ j =>
    cases hs : cd.getD (rowStart + 2) none with
    | none =>
      rw [chain_stop_none cd colW rowStart 0 j (0 + 1 + 1) _ hs]
    | some c2 =>
      have hm2 : c2.fmt.rightMerge = false := by
        rw [merge_flag, hs] at h2
        exact h2
      rw [chain_stop_nomerge cd colW rowStart 0 j (0 + 1 + 1) _ c2 hs hm2]

theorem design_chain_012 (cd : List (Option Cell)) (colW : Nat → Int) (rowStart : Nat)
    (c0 c1 : Cell)
    (h0 : cd.getD rowStart none = some c0) (hm0 : c0.fmt.rightMerge = true)
    (h1 : cd.getD (rowStart + 1) none = some c1) (hm1 : c1.fmt.rightMerge = true)
    (h2 : merge_flag cd (rowStart + 2) = false)
    (fuel : Nat) (hf : 2 ≤ fuel) (a : Int) :
    lv_table_design_merge_chain cd colW rowStart 0 fuel 0 a
      = (2, a + colW 1 + colW 2) := by
  obtain ⟨hA, hB⟩ := chain_shift fuel cd colW rowStart 0 0 a 0
  rw [get_chain_012 cd colW rowStart c0 c1 h0 hm0 h1 hm1 h2 fuel hf 0] at hA hB
  have hA2 : (lv_table_design_merge_chain cd colW rowStart 0 fuel 0 a).1 = 2 := hA
  have hB2 : (lv_table_design_merge_chain cd colW rowStart 0 fuel 0 a).2
      = a + colW 1 + colW 2 := by
    have hB3 : (lv_table_design_merge_chain cd colW rowStart 0 fuel 0 a).2 - a
        = (0 + colW 1 + colW 2 : Int) - 0 := hB
    omega
  calc lv_table_design_merge_chain cd colW rowStart 0 fuel 0 a
      = ((lv_table_design_merge_chain cd colW rowStart 0 fuel 0 a).1,
         (lv_table_design_merge_chain cd colW rowStart 0 fuel 0 a).2) := rfl
    _ = (2, a + colW 1 + colW 2) := by rw [hA2, hB2]

theorem cells_col_le (fuel : Nat) :
    ∀ (cd : List (Option Cell)) (colW : Nat → Int) (colCnt rowStart cell col : Nat)
      (p : Nat × Int),
    p ∈ get_row_height_cells cd colW colCnt rowStart fuel cell col → col ≤ p.1 := by
  induction fuel with
  | zero =>
    intro cd colW colCnt rowStart cell col p hp
    exact absurd hp (List.not_mem_nil p)
  | succ n ih =>
    intro cd colW colCnt rowStart cell col p hp
    by_cases hg : cell < rowStart + colCnt
    · cases h : cd.getD cell none with
      | none =>
        rw [cells_skip cd colW colCnt rowStart n cell col hg h] at hp
        exact Nat.le_trans (Nat.le_succ col) (ih cd colW colCnt rowStart (cell + 1) (col + 1) p hp)
      | some c =>
        rw [cells_emit cd colW colCnt rowStart n cell col c hg h] at hp
        rcases List.mem_cons.mp hp with hp1 | hp2
        · rw [hp1]
        · have := ih cd colW colCnt rowStart _ _ p hp2
          omega
    · rw [cells_stop cd colW colCnt rowStart n cell col hg] at hp
      exact absurd hp (List.not_mem_nil p)

theorem design_cells_col_le (fuel : Nat) :
    ∀ (cd : List (Option Cell)) (colW : Nat → Int) (colCnt cell col : Nat) (x : Int)
      (e : Nat × Int × Int),
    e ∈ lv_table_design_cells cd colW colCnt fuel cell col x → col ≤ e.1 := by
  induction fuel with
  | zero =>
    intro cd colW colCnt cell col x e he
    exact absurd he (List.not_mem_nil e)
  | succ n ih =>
    intro cd colW colCnt cell col x e he
    by_cases hg : col < colCnt
    · rw [design_cells_step cd colW colCnt n cell col x hg] at he
      rcases List.mem_cons.mp he with he1 | he2
      · rw [he1]
      · have := ih cd colW colCnt _ _ _ e he2
        omega
    · rw [design_cells_stop cd colW colCnt n cell col x hg] at he
      exact absurd he (List.not_mem_nil e)

/-- Claim C4: in a row whose cells at columns 0 and 1 both carry the
right-merge flag while column 2 does not, both the measurement walk of
`get_row_height` and the main-draw walk of `lv_table_design` resolve the
merge span of the anchor cell at column 0 to exactly the widths of columns
0, 1 and 2; columns 1 and 2 are not visited by either walk (never
independently measured or drawn); and no merge chain ever crosses the last
column. -/
theorem c4_merge_chain_resolution (cd : List (Option Cell)) (colW : Nat → Int)
    (colCnt rowStart : Nat) (x : Int) (c0 c1 : Cell)
    (hcnt : 3 ≤ colCnt)
    (h0 : cd.getD rowStart none = some c0) (hm0 : c0.fmt.rightMerge = true)
    (h1 : cd.getD (rowStart + 1) none = some c1) (hm1 : c1.fmt.rightMerge = true)
    (h2 : merge_flag cd (rowStart + 2) = false) :
    get_row_height_cells cd colW colCnt rowStart colCnt rowStart 0
      = (0, colW 0 + colW 1 + colW 2)
        :: get_row_height_cells cd colW colCnt rowStart (colCnt - 1) (rowStart + 3) 3
    ∧ (∀ p ∈ get_row_height_cells cd colW colCnt rowStart colCnt rowStart 0,
        p.1 = 0 ∨ 3 ≤ p.1)
    ∧ lv_table_design_cells cd colW colCnt colCnt rowStart 0 x
      = (0, x, x + colW 0 + colW 1 + colW 2)
        :: lv_table_design_cells cd colW colCnt (colCnt - 1) (rowStart + 3) 3
            (x + colW 0 + colW 1 + colW 2)
    ∧ (∀ e ∈ lv_table_design_cells cd colW colCnt colCnt rowStart 0 x,
        e.1 = 0 ∨ 3 ≤ e.1)
    ∧ (∀ col2 : Nat, ∀ w : Int, col2 < colCnt →
        (get_row_height_merge_chain cd colW (rowStart + col2) col2
          (colCnt - 1 - col2) 0 w).1 + col2 < colCnt) := by
  obtain ⟨m, rfl⟩ : ∃ m, colCnt = m + 3 := ⟨colCnt - 3, by omega⟩
  have hchainM : get_row_height_merge_chain cd colW rowStart 0 (m + 3 - 1 - 0) 0 (colW 0)
      = (2, colW 0 + colW 1 + colW 2) :=
    get_chain_012 cd colW rowStart c0 c1 h0 hm0 h1 hm1 h2 _ (by omega) (colW 0)
  have hchainD : lv_table_design_merge_chain cd colW rowStart 0 (m + 3 - 1 - 0) 0 (x + colW 0)
      = (2, (x + colW 0) + colW 1 + colW 2) :=
    design_chain_012 cd colW rowStart c0 c1 h0 hm0 h1 hm1 h2 _ (by omega) (x + colW 0)
  have hM : get_row_height_cells cd colW (m + 3) rowStart (m + 3) rowStart 0
      = (0, colW 0 + colW 1 + colW 2)
        :: get_row_height_cells cd colW (m + 3) rowStart (m + 3 - 1) (rowStart + 3) 3 := by
    rw [cells_emit cd colW (m + 3) rowStart (m + 2) rowStart 0 c0 (by omega)
        (by exact h0)]
    rw [hchainM]
    rfl
  have hD : lv_table_design_cells cd colW (m + 3) (m + 3) rowStart 0 x
      = (0, x, x + colW 0 + colW 1 + colW 2)
        :: lv_table_design_cells cd colW (m + 3) (m + 3 - 1) (rowStart + 3) 3
            (x + colW 0 + colW 1 + colW 2) := by
    rw [design_cells_step cd colW (m + 3) (m + 2) rowStart 0 x (by omega)]
    rw [hchainD]
    rfl
  refine ⟨hM, ?_, hD, ?_, ?_⟩
  · intro p hp
    rw [hM] at hp
    rcases List.mem_cons.mp hp with hp1 | hp2
    · left; rw [hp1]
    · right; exact cells_col_le (m + 3 - 1) cd colW (m + 3) rowStart (rowStart + 3) 3 p hp2
  · intro e he
    rw [hD] at he
    rcases List.mem_cons.mp he with he1 | he2
    · left; rw [he1]
    · right
      exact design_cells_col_le (m + 3 - 1) cd colW (m + 3) (rowStart + 3) 3 _ e he2
  · intro col2 w hcol2
    have := get_chain_le (m + 3 - 1 - col2) cd colW (rowStart + col2) col2 0 w
    omega

def c4c0 : Cell := { fmt := { align := 0, rightMerge := true }, txt := ['h', 'i'] }

def c4c1 : Cell := { fmt := { align := 0, rightMerge := true }, txt := [] }

def c4cd : List (Option Cell) := [some c4c0, some c4c1, none]

def c4w : Nat → Int := fun _ => 50

/-- Witness for C4 on a concrete 3-column row with cells (0,0) and (0,1)
right-merged and (0,2) unallocated. -/
theorem c4_merge_chain_resolution_witness :
    (3 ≤ 3 ∧ c4cd.getD 0 none = some c4c0 ∧ c4c0.fmt.rightMerge = true
      ∧ c4cd.getD (0 + 1) none = some c4c1 ∧ c4c1.fmt.rightMerge = true
      ∧ merge_flag c4cd (0 + 2) = false)
    ∧ (get_row_height_cells c4cd c4w 3 0 3 0 0
        = (0, c4w 0 + c4w 1 + c4w 2)
          :: get_row_height_cells c4cd c4w 3 0 (3 - 1) (0 + 3) 3
      ∧ (∀ p ∈ get_row_height_cells c4cd c4w 3 0 3 0 0, p.1 = 0 ∨ 3 ≤ p.1)
      ∧ lv_table_design_cells c4cd c4w 3 3 0 0 7
        = (0, 7, 7 + c4w 0 + c4w 1 + c4w 2)
          :: lv_table_design_cells c4cd c4w 3 (3 - 1) (0 + 3) 3 (7 + c4w 0 + c4w 1 + c4w 2)
      ∧ (∀ e ∈ lv_table_design_cells c4cd c4w 3 3 0 0 7, e.1 = 0 ∨ 3 ≤ e.1)
      ∧ (∀ col2 : Nat, ∀ w : Int, col2 < 3 →
          (get_row_height_merge_chain c4cd c4w (0 + col2) col2 (3 - 1 - col2) 0 w).1
            + col2 < 3)) :=
  ⟨⟨by decide, by decide, by decide, by decide, by decide, by decide⟩,
   c4_merge_chain_resolution c4cd c4w 3 0 7 c4c0 c4c1
     (by decide) (by decide) (by decide) (by decide) (by decide) (by decide)⟩

/-! ### Claim C10: layout is independent of the alignment bits -/

theorem chain_erase (fuel : Nat) :
    ∀ (cd : List (Option Cell)) (colW : Nat → Int) (cell col cm : Nat) (acc : Int),
    get_row_height_merge_chain (cd.map (Option.map cell_erase_align)) colW cell col fuel cm acc
      = get_row_height_merge_chain cd colW cell col fuel cm acc := by
  induction fuel with
  | zero => intro cd colW cell col cm acc; rfl
  | succ n ih =>
    intro cd colW cell col cm acc
    cases h : cd.getD (cell + cm) none with
    | none =>
      rw [chain_stop_none (cd.map (Option.map cell_erase_align)) colW cell col n cm acc
          (by rw [list_getD_map_opt cell_erase_align cd (cell + cm), h]; rfl)]
      rw [chain_stop_none cd colW cell col n cm acc h]
    | some c =>
      by_cases hm : c.fmt.rightMerge = true
      · rw [chain_step_merge (cd.map (Option.map cell_erase_align)) colW cell col n cm acc
            (cell_erase_align c)
            (by rw [list_getD_map_opt cell_erase_align cd (cell + cm), h]; rfl) hm]
        rw [chain_step_merge cd colW cell col n cm acc c h hm]
        exact ih cd colW cell col (cm + 1) (acc + colW (col + cm + 1))
      · have hmf : c.fmt.rightMerge = false := by
          revert hm; cases c.fmt.rightMerge <;> simp
        rw [chain_stop_nomerge (cd.map (Option.map cell_erase_align)) colW cell col n cm acc
            (cell_erase_align c)
            (by rw [list_getD_map_opt cell_erase_align cd (cell + cm), h]; rfl) hmf]
        rw [chain_stop_nomerge cd colW cell col n cm acc c h hmf]

theorem scan_erase (fuel : Nat) :
    ∀ (env : Env) (st : Style) (cd : List (Option Cell)) (colW : Nat → Int)
      (colCnt rowStart cell col : Nat) (hMax : Int),
    get_row_height_scan env st (cd.map (Option.map cell_erase_align)) colW colCnt rowStart
        fuel cell col hMax
      = get_row_height_scan env st cd colW colCnt rowStart fuel cell col hMax := by
  induction fuel with
  | zero => intro env st cd colW colCnt rowStart cell col hMax; rfl
  | succ n ih =>
    intro env st cd colW colCnt rowStart cell col hMax
    by_cases hg : cell < rowStart + colCnt
    · cases h : cd.getD cell none with
      | none =>
        rw [scan_skip env st (cd.map (Option.map cell_erase_align)) colW colCnt rowStart
            n cell col hMax hg (by rw [list_getD_map_opt cell_erase_align cd cell, h]; rfl)]
        rw [scan_skip env st cd colW colCnt rowStart n cell col hMax hg h]
        exact ih env st cd colW colCnt rowStart (cell + 1) (col + 1) hMax
      | some c =>
        rw [scan_emit env st (cd.map (Option.map cell_erase_align)) colW colCnt rowStart
            n cell col hMax (cell_erase_align c) hg
            (by rw [list_getD_map_opt cell_erase_align cd cell, h]; rfl)]
        rw [scan_emit env st cd colW colCnt rowStart n cell col hMax c hg h]
        rw [chain_erase (colCnt - 1 - col) cd colW cell col 0 (colW col)]
        exact ih env st cd colW colCnt rowStart _ _ _
    · rw [scan_stop env st (cd.map (Option.map cell_erase_align)) colW colCnt rowStart
          n cell col hMax hg]
      rw [scan_stop env st cd colW colCnt rowStart n cell col hMax hg]

theorem get_row_height_erase (env : Env) (s : TableState) (rowId : Nat) :
    get_row_height env (erase_align s) rowId = get_row_height env s rowId := by
  simp only [get_row_height, erase_align]
  cases hcd : s.cellData with
  | none => rfl
  | some l =>
    exact congrArg (fun z => z + 2 * s.cellStyle.padVer)
      (scan_erase s.colCnt env s.cellStyle l s.colW s.colCnt
        ((rowId * s.colCnt) % 65536) ((rowId * s.colCnt) % 65536) 0 s.cellStyle.fontH)

/-- Claim C10: two table states that agree on everything except the alignment
bits of their cells (same texts, same merge flags, same counts, widths and
styles — i.e., equal after `erase_align`) get the same `get_row_height` for
every row and the same recomputed widget size, because layout measurement
always uses the no-flags text mode and never reads the alignment. -/
theorem c10_layout_align_independent (env : Env) (s1 s2 : TableState) (r : Nat)
    (h : erase_align s1 = erase_align s2) :
    get_row_height env s1 r = get_row_height env s2 r
    ∧ (refr_size env s1).objW = (refr_size env s2).objW
    ∧ (refr_size env s1).objH = (refr_size env s2).objH := by
  have hrow : ∀ i, get_row_height env s1 i = get_row_height env s2 i := by
    intro i
    rw [← get_row_height_erase env s1 i, h, get_row_height_erase]
  have hcol0 := congrArg TableState.colCnt h
  have hW0 := congrArg TableState.colW h
  have hbg0 := congrArg TableState.bgStyle h
  have hrc0 := congrArg TableState.rowCnt h
  have hcol : s1.colCnt = s2.colCnt := hcol0
  have hW : s1.colW = s2.colW := hW0
  have hbg : s1.bgStyle = s2.bgStyle := hbg0
  have hrc : s1.rowCnt = s2.rowCnt := hrc0
  refine ⟨hrow r, ?_, ?_⟩
  · show (List.range s1.colCnt).foldl (fun acc i => acc + s1.colW i) 0
        + s1.bgStyle.padHor * 2
      = (List.range s2.colCnt).foldl (fun acc i => acc + s2.colW i) 0
        + s2.bgStyle.padHor * 2
    rw [hcol, hW, hbg]
  · show (List.range s1.rowCnt).foldl (fun acc i => acc + get_row_height env s1 i) 0
        + s1.bgStyle.padVer * 2
      = (List.range s2.rowCnt).foldl (fun acc i => acc + get_row_height env s2 i) 0
        + s2.bgStyle.padVer * 2
    rw [hrc, hbg,
      foldl_add_congr (fun i => get_row_height env s1 i) (fun i => get_row_height env s2 i)
        (List.range s2.rowCnt) 0 (fun i _ => hrow i)]

def c10S1 : TableState :=
  { cellData := some [some { fmt := { align := 2, rightMerge := true }, txt := ['h'] }]
    cellStyle := wStyle
    bgStyle := wStyle
    rowCnt := 1
    colCnt := 1
    colW := fun _ => 50
    objW := 0
    objH := 0 }

def c10S2 : TableState :=
  { cellData := some [some { fmt := { align := 0, rightMerge := true }, txt := ['h'] }]
    cellStyle := wStyle
    bgStyle := wStyle
    rowCnt := 1
    colCnt := 1
    colW := fun _ => 50
    objW := 0
    objH := 0 }

/-- Witness for C10: a right-aligned and a left-aligned copy of the same 1×1
table measure and size identically. -/
theorem c10_layout_align_independent_witness :
    erase_align c10S1 = erase_align c10S2
    ∧ (get_row_height wEnv c10S1 0 = get_row_height wEnv c10S2 0
      ∧ (refr_size wEnv c10S1).objW = (refr_size wEnv c10S2).objW
      ∧ (refr_size wEnv c10S1).objH = (refr_size wEnv c10S2).objH) :=
  ⟨rfl, c10_layout_align_independent wEnv c10S1 c10S2 0 rfl⟩

end LvTable
